import Mathlib

/-!
Verification of the tabular policy-iteration module
`rl_exercises/week_2/policy_iteration.py`.

Shallow embedding conventions: states and actions are `Fin nS` and
`Fin nA`; NumPy float arithmetic is modelled exactly by `ℚ`; each
`while True` loop is modelled with an explicit fuel parameter, `none`
meaning the loop has not finished within `fuel` rounds, so that loop
termination is the statement `∃ fuel, the run returns some value`.  `np.save` / `np.load` are
modelled by a string-indexed store of integer arrays.
-/

open Finset

/-- One synchronous (Jacobi) Bellman backup for the fixed policy `pi`:
`V_new[s] = Σ_{s'} T[s, pi[s], s'] * (R_sa[s, pi[s]] + gamma * V[s'])`
(the body of the `for s in range(nS)` loop of `policy_evaluation`,
lines 175-178 of the source). -/
def evalStep {nS nA : ℕ} (pi : Fin nS → Fin nA) (T : Fin nS → Fin nA → Fin nS → ℚ)
    (R_sa : Fin nS → Fin nA → ℚ) (gamma : ℚ) (V : Fin nS → ℚ) : Fin nS → ℚ :=
  fun s => ∑ s_next, T s (pi s) s_next * (R_sa s (pi s) + gamma * V s_next)

/-- Maximum of `|f s|` over all states: `np.max(np.abs(...))` of the
source, folded with neutral element `0` (all entries are `≥ 0`; the
source errors on `nS = 0`, where this returns `0`). -/
def maxAbs {n : ℕ} (f : Fin n → ℚ) : ℚ :=
  Finset.univ.fold max 0 fun s => |f s|

/-- Fuel-indexed body of the `while True` loop of `policy_evaluation`
(lines 173-181): compute `V_new` from `V` by a synchronous backup, stop
and return the pre-update `V` once `max_s |V_new[s] - V[s]| < epsilon`,
otherwise continue from `V_new`. -/
def policyEvalAux {nS nA : ℕ} (pi : Fin nS → Fin nA) (T : Fin nS → Fin nA → Fin nS → ℚ)
    (R_sa : Fin nS → Fin nA → ℚ) (gamma epsilon : ℚ) :
    ℕ → (Fin nS → ℚ) → Option (Fin nS → ℚ)
  | 0, _ => none
  | fuel + 1, V =>
    let V_new := evalStep pi T R_sa gamma V
    if maxAbs (fun s => V_new s - V s) < epsilon then some V
    else policyEvalAux pi T R_sa gamma epsilon fuel V_new

/-- Embedding of `policy_evaluation(pi, T, R_sa, gamma, epsilon)`
(lines 142-183): iterate the synchronous Bellman backup starting from
the all-zeros value function. -/
def policy_evaluation {nS nA : ℕ} (pi : Fin nS → Fin nA) (T : Fin nS → Fin nA → Fin nS → ℚ)
    (R_sa : Fin nS → Fin nA → ℚ) (gamma epsilon : ℚ) (fuel : ℕ) : Option (Fin nS → ℚ) :=
  policyEvalAux pi T R_sa gamma epsilon fuel fun _ => 0

/-- Q-table of `policy_improvement` (lines 211-216):
`Q[s,a] = Σ_{s'} T[s,a,s'] * (R_sa[s,a] + gamma * V[s'])`. -/
def Qof {nS nA : ℕ} (V : Fin nS → ℚ) (T : Fin nS → Fin nA → Fin nS → ℚ)
    (R_sa : Fin nS → Fin nA → ℚ) (gamma : ℚ) : Fin nS → Fin nA → ℚ :=
  fun s a => ∑ s_next, T s a s_next * (R_sa s a + gamma * V s_next)

/-- Embedding of `np.argmax` over one row: scan the indices in
increasing order, replacing the current best only on a strictly larger
value, so ties resolve to the lowest index. -/
def firstArgmax {nA : ℕ} [NeZero nA] (f : Fin nA → ℚ) : Fin nA :=
  (List.finRange nA).foldl (fun best a => if f best < f a then a else best) 0

/-- Greedy policy `pi_new = np.argmax(Q, axis=1)` of `policy_improvement`
(line 217). -/
def piOf {nS nA : ℕ} [NeZero nA] (V : Fin nS → ℚ) (T : Fin nS → Fin nA → Fin nS → ℚ)
    (R_sa : Fin nS → Fin nA → ℚ) (gamma : ℚ) : Fin nS → Fin nA :=
  fun s => firstArgmax fun a => Qof V T R_sa gamma s a

/-- Embedding of `policy_improvement(V, T, R_sa, gamma)` (lines 186-218),
returning the pair `(Q, pi_new)`. -/
def policy_improvement {nS nA : ℕ} [NeZero nA] (V : Fin nS → ℚ)
    (T : Fin nS → Fin nA → Fin nS → ℚ) (R_sa : Fin nS → Fin nA → ℚ) (gamma : ℚ) :
    (Fin nS → Fin nA → ℚ) × (Fin nS → Fin nA) :=
  (Qof V T R_sa gamma, piOf V T R_sa gamma)

/-- Fuel-indexed body of the `while True` loop of `policy_iteration`
(lines 249-255): evaluate the current policy, improve, increment
`steps`, stop when the improved policy equals the current one.  The
inner evaluation loop runs on its own fuel `inner`; `none` means either
loop is still running when its fuel ends. -/
def policyIterAux {nS nA : ℕ} [NeZero nA] (T : Fin nS → Fin nA → Fin nS → ℚ)
    (R_sa : Fin nS → Fin nA → ℚ) (gamma epsilon : ℚ) (inner : ℕ) :
    ℕ → (Fin nS → Fin nA) → ℕ →
    Option ((Fin nS → Fin nA → ℚ) × (Fin nS → Fin nA) × ℕ)
  | 0, _, _ => none
  | fuel + 1, pi, steps =>
    match policy_evaluation pi T R_sa gamma epsilon inner with
    | none => none
    | some V =>
      let Q := Qof V T R_sa gamma
      let pi_new := piOf V T R_sa gamma
      if pi_new = pi then some (Q, pi, steps + 1)
      else policyIterAux T R_sa gamma epsilon inner fuel pi_new (steps + 1)

/-- Embedding of `policy_iteration(Q, pi, MDP, epsilon)` (lines 221-257).
The MDP components `S` and `A` of the Python tuple are unused by the
source body and are omitted; `Q` is the initial Q-table, which the
source overwrites before ever reading it. -/
def policy_iteration {nS nA : ℕ} [NeZero nA] (Q : Fin nS → Fin nA → ℚ)
    (pi : Fin nS → Fin nA) (T : Fin nS → Fin nA → Fin nS → ℚ)
    (R_sa : Fin nS → Fin nA → ℚ) (gamma epsilon : ℚ) (inner fuel : ℕ) :
    Option ((Fin nS → Fin nA → ℚ) × (Fin nS → Fin nA) × ℕ) :=
  policyIterAux T R_sa gamma epsilon inner fuel pi 0

/-- Default `epsilon = 1e-8` of the source signatures. -/
def defaultEpsilon : ℚ := 1 / 100000000

/-- Mutable state of the `PolicyIteration` agent wrapper: `pi` and `Q`
are `none` before fitting (Python `None`); `pi` is an untyped integer
array exactly as `np.load` would produce it. -/
structure AgentState where
  n_obs : ℕ
  n_actions : ℕ
  pi : Option (List ℤ)
  Q : Option (List (List ℚ))
  steps : ℕ
  policy_fitted : Bool
  filename : String
  deriving DecidableEq

/-- Policy rendered as the integer array `np.array(pi)`. -/
def policyToList {nS nA : ℕ} (pi : Fin nS → Fin nA) : List ℤ :=
  (List.finRange nS).map fun s => ((pi s : ℕ) : ℤ)

/-- Q-table rendered as a nested array. -/
def qToList {nS nA : ℕ} (Q : Fin nS → Fin nA → ℚ) : List (List ℚ) :=
  (List.finRange nS).map fun s => (List.finRange nA).map fun a => Q s a

/-- Embedding of `PolicyIteration.update_agent` (lines 92-112): a no-op
when already fitted; otherwise pull the MDP data (here passed as `T`,
`R_sa`, `gamma`), zero-initialize `pi` and `Q`, run the driver with the
default `epsilon`, store its results and mark the agent fitted. -/
def AgentState.update_agent {nS nA : ℕ} [NeZero nA] (T : Fin nS → Fin nA → Fin nS → ℚ)
    (R_sa : Fin nS → Fin nA → ℚ) (gamma : ℚ) (inner fuel : ℕ) (st : AgentState) :
    Option AgentState :=
  if st.policy_fitted then some st
  else
    (policy_iteration (fun _ _ => (0 : ℚ)) (fun _ => (0 : Fin nA)) T R_sa gamma
        defaultEpsilon inner fuel).map fun out =>
      { st with
        pi := some (policyToList out.2.1)
        Q := some (qToList out.1)
        steps := out.2.2
        policy_fitted := true }

/-- Persistent store backing `np.save` / `np.load`: a map from file
names to stored integer arrays. -/
def FileStore : Type := String → Option (List ℤ)

/-- Embedding of `PolicyIteration.save` (lines 114-126): when fitted,
write `pi` to `filename`; otherwise leave the store unchanged and
signal a warning (the returned `Bool`). -/
def AgentState.save (st : AgentState) (fs : FileStore) : FileStore × Bool :=
  if st.policy_fitted then
    (fun p => if p = st.filename then some (st.pi.getD []) else fs p, false)
  else (fs, true)

/-- Error raised by `np.load` on a missing file. -/
inductive LoadErr where
  | fileNotFound
  deriving DecidableEq

/-- Embedding of `PolicyIteration.load` (lines 128-139): read the array
stored at `filename` into `pi` (no shape check of any kind) and mark
the agent fitted; a missing file raises. -/
def AgentState.load (st : AgentState) (fs : FileStore) : Except LoadErr AgentState :=
  match fs st.filename with
  | none => .error .fileNotFound
  | some arr => .ok { st with pi := some arr, policy_fitted := true }

/-! Basic facts about `maxAbs`. -/

lemma maxAbs_nonneg {n : ℕ} (f : Fin n → ℚ) : 0 ≤ maxAbs f :=
  (Finset.le_fold_max 0).mpr (Or.inl le_rfl)

lemma le_maxAbs {n : ℕ} (f : Fin n → ℚ) (s : Fin n) : |f s| ≤ maxAbs f :=
  (Finset.le_fold_max _).mpr (Or.inr ⟨s, Finset.mem_univ s, le_rfl⟩)

lemma maxAbs_lt_iff {n : ℕ} (f : Fin n → ℚ) (c : ℚ) :
    maxAbs f < c ↔ 0 < c ∧ ∀ s, |f s| < c := by
  unfold maxAbs
  rw [Finset.fold_max_lt]
  simp

lemma maxAbs_le {n : ℕ} {f : Fin n → ℚ} {c : ℚ} (h0 : 0 ≤ c) (h : ∀ s, |f s| ≤ c) :
    maxAbs f ≤ c := by
  unfold maxAbs
  rw [Finset.fold_max_le]
  exact ⟨h0, fun s _ => h s⟩

/-! Convergence of the evaluation loop: the synchronous backup is a
`gamma`-contraction in the max norm for a row-stochastic `T`. -/

lemma evalStep_contraction {nS nA : ℕ} (pi : Fin nS → Fin nA)
    (T : Fin nS → Fin nA → Fin nS → ℚ) (R_sa : Fin nS → Fin nA → ℚ) {gamma : ℚ}
    (hT0 : ∀ s a s_next, 0 ≤ T s a s_next) (hT1 : ∀ s a, ∑ s_next, T s a s_next = 1)
    (hg0 : 0 ≤ gamma) (V W : Fin nS → ℚ) :
    maxAbs (fun s => evalStep pi T R_sa gamma V s - evalStep pi T R_sa gamma W s)
      ≤ gamma * maxAbs fun s => V s - W s := by
  apply maxAbs_le (mul_nonneg hg0 (maxAbs_nonneg _))
  intro s
  have hdiff : evalStep pi T R_sa gamma V s - evalStep pi T R_sa gamma W s
      = ∑ s_next, T s (pi s) s_next * (gamma * (V s_next - W s_next)) := by
    unfold evalStep
    rw [← Finset.sum_sub_distrib]
    exact Finset.sum_congr rfl fun x _ => by ring
  simp only [hdiff]
  calc |∑ s_next, T s (pi s) s_next * (gamma * (V s_next - W s_next))|
      ≤ ∑ s_next, |T s (pi s) s_next * (gamma * (V s_next - W s_next))| :=
        Finset.abs_sum_le_sum_abs _ _
    _ ≤ ∑ s_next, T s (pi s) s_next * (gamma * maxAbs fun t => V t - W t) := by
        apply Finset.sum_le_sum
        intro x _
        rw [abs_mul, abs_mul, abs_of_nonneg (hT0 s (pi s) x), abs_of_nonneg hg0]
        have hx : |V x - W x| ≤ maxAbs fun t => V t - W t := le_maxAbs (fun t => V t - W t) x
        exact mul_le_mul_of_nonneg_left (mul_le_mul_of_nonneg_left hx hg0) (hT0 s (pi s) x)
    _ = (∑ s_next, T s (pi s) s_next) * (gamma * maxAbs fun t => V t - W t) := by
        rw [Finset.sum_mul]
    _ = gamma * maxAbs fun t => V t - W t := by rw [hT1 s (pi s), one_mul]

lemma diff_iterates_pow {nS nA : ℕ} (pi : Fin nS → Fin nA)
    (T : Fin nS → Fin nA → Fin nS → ℚ) (R_sa : Fin nS → Fin nA → ℚ) {gamma : ℚ}
    (hT0 : ∀ s a s_next, 0 ≤ T s a s_next) (hT1 : ∀ s a, ∑ s_next, T s a s_next = 1)
    (hg0 : 0 ≤ gamma) (k : ℕ) :
    maxAbs (fun s => (evalStep pi T R_sa gamma)^[k + 1] (fun _ => 0) s
        - (evalStep pi T R_sa gamma)^[k] (fun _ => 0) s)
      ≤ gamma ^ k *
        maxAbs fun s => evalStep pi T R_sa gamma (fun _ => 0) s - (0 : ℚ) := by
  induction k with
  | zero =>
    simp only [Function.iterate_one, Function.iterate_zero, id_eq, pow_zero, one_mul]
    exact le_rfl
  | succ k ih =>
    have h1 : (evalStep pi T R_sa gamma)^[k + 1 + 1] (fun _ => 0)
        = evalStep pi T R_sa gamma ((evalStep pi T R_sa gamma)^[k + 1] fun _ => 0) :=
      Function.iterate_succ_apply' _ _ _
    have h2 : (evalStep pi T R_sa gamma)^[k + 1] (fun _ => 0)
        = evalStep pi T R_sa gamma ((evalStep pi T R_sa gamma)^[k] fun _ => 0) :=
      Function.iterate_succ_apply' _ _ _
    have hco := evalStep_contraction pi T R_sa hT0 hT1 hg0
      ((evalStep pi T R_sa gamma)^[k + 1] fun _ => 0)
      ((evalStep pi T R_sa gamma)^[k] fun _ => 0)
    rw [← h1, ← h2] at hco
    have hmul : gamma * maxAbs (fun s => (evalStep pi T R_sa gamma)^[k + 1] (fun _ => 0) s
          - (evalStep pi T R_sa gamma)^[k] (fun _ => 0) s)
        ≤ gamma * (gamma ^ k *
          maxAbs fun s => evalStep pi T R_sa gamma (fun _ => 0) s - (0 : ℚ)) :=
      mul_le_mul_of_nonneg_left ih hg0
    have heq : gamma * (gamma ^ k *
          maxAbs fun s => evalStep pi T R_sa gamma (fun _ => 0) s - (0 : ℚ))
        = gamma ^ (k + 1) *
          maxAbs fun s => evalStep pi T R_sa gamma (fun _ => 0) s - (0 : ℚ) := by
      ring
    rw [heq] at hmul
    exact le_trans hco hmul

lemma policyEvalAux_of_cond {nS nA : ℕ} (pi : Fin nS → Fin nA)
    (T : Fin nS → Fin nA → Fin nS → ℚ) (R_sa : Fin nS → Fin nA → ℚ)
    (gamma epsilon : ℚ) :
    ∀ (fuel : ℕ) (V : Fin nS → ℚ),
      (∃ j, j < fuel ∧
        maxAbs (fun s => evalStep pi T R_sa gamma ((evalStep pi T R_sa gamma)^[j] V) s
          - (evalStep pi T R_sa gamma)^[j] V s) < epsilon) →
      ∃ j, policyEvalAux pi T R_sa gamma epsilon fuel V
            = some ((evalStep pi T R_sa gamma)^[j] V)
        ∧ maxAbs (fun s => evalStep pi T R_sa gamma ((evalStep pi T R_sa gamma)^[j] V) s
            - (evalStep pi T R_sa gamma)^[j] V s) < epsilon := by
  intro fuel
  induction fuel with
  | zero =>
    rintro V ⟨j, hj, -⟩
    exact absurd hj (Nat.not_lt_zero j)
  | succ f ih =>
    rintro V ⟨j, hj, hcond⟩
    by_cases hc : maxAbs (fun s => evalStep pi T R_sa gamma V s - V s) < epsilon
    · refine ⟨0, ?_, by simpa using hc⟩
      simp only [policyEvalAux, Function.iterate_zero, id_eq]
      rw [if_pos hc]
    · have hj0 : j ≠ 0 := by
        rintro rfl
        simp only [Function.iterate_zero, id_eq] at hcond
        exact hc hcond
      obtain ⟨j', rfl⟩ : ∃ j'', j = j'' + 1 := ⟨j - 1, by omega⟩
      have hshift : ∀ m, (evalStep pi T R_sa gamma)^[m + 1] V
          = (evalStep pi T R_sa gamma)^[m] (evalStep pi T R_sa gamma V) := fun m =>
        Function.iterate_succ_apply _ _ _
      have hcond' : maxAbs (fun s =>
          evalStep pi T R_sa gamma
            ((evalStep pi T R_sa gamma)^[j'] (evalStep pi T R_sa gamma V)) s
          - (evalStep pi T R_sa gamma)^[j'] (evalStep pi T R_sa gamma V) s) < epsilon := by
        rw [← hshift j']
        exact hcond
      obtain ⟨j'', heq, hc''⟩ := ih (evalStep pi T R_sa gamma V)
        ⟨j', by omega, hcond'⟩
      refine ⟨j'' + 1, ?_, by rw [hshift j'']; exact hc''⟩
      simp only [policyEvalAux]
      rw [if_neg hc, hshift j'']
      exact heq

/-- C1: for every valid MDP (`T` row-stochastic with nonnegative
entries), `gamma ∈ [0,1)` and `epsilon > 0`, `policy_evaluation`
terminates: for some fuel it returns a value function `V` that is an
iterate of the synchronous Jacobi backup started at the all-zeros
vector, and at exit `max_s |V_new[s] - V[s]| < epsilon`, i.e. `V`
satisfies the Bellman equation for the fixed policy `pi` within
`epsilon`. -/
theorem policy_evaluation_converges {nS nA : ℕ} (pi : Fin nS → Fin nA)
    (T : Fin nS → Fin nA → Fin nS → ℚ) (R_sa : Fin nS → Fin nA → ℚ)
    (gamma epsilon : ℚ)
    (hT0 : ∀ s a s_next, 0 ≤ T s a s_next) (hT1 : ∀ s a, ∑ s_next, T s a s_next = 1)
    (hg0 : 0 ≤ gamma) (hg1 : gamma < 1) (he : 0 < epsilon) :
    ∃ fuel V, policy_evaluation pi T R_sa gamma epsilon fuel = some V
      ∧ (∃ j, V = (evalStep pi T R_sa gamma)^[j] fun _ => 0)
      ∧ maxAbs (fun s => evalStep pi T R_sa gamma V s - V s) < epsilon := by
  have hC0 : 0 ≤ maxAbs fun s => evalStep pi T R_sa gamma (fun _ => 0) s - (0 : ℚ) :=
    maxAbs_nonneg _
  have hk : ∃ k, gamma ^ k *
      (maxAbs fun s => evalStep pi T R_sa gamma (fun _ => 0) s - (0 : ℚ)) < epsilon := by
    rcases eq_or_lt_of_le hC0 with hC | hC
    · exact ⟨0, by rw [← hC, mul_zero]; exact he⟩
    · obtain ⟨k, hk⟩ := exists_pow_lt_of_lt_one (div_pos he hC) hg1
      exact ⟨k, (lt_div_iff₀ hC).mp hk⟩
  obtain ⟨k, hk⟩ := hk
  have hcondk : maxAbs (fun s =>
      evalStep pi T R_sa gamma ((evalStep pi T R_sa gamma)^[k] fun _ => 0) s
        - (evalStep pi T R_sa gamma)^[k] (fun _ => 0) s) < epsilon := by
    have h1 := diff_iterates_pow pi T R_sa hT0 hT1 hg0 k
    rw [Function.iterate_succ_apply'] at h1
    exact lt_of_le_of_lt h1 hk
  obtain ⟨j, heq, hcond⟩ := policyEvalAux_of_cond pi T R_sa gamma epsilon (k + 1)
    (fun _ => 0) ⟨k, Nat.lt_succ_self k, hcondk⟩
  exact ⟨k + 1, (evalStep pi T R_sa gamma)^[j] fun _ => 0, heq, ⟨j, rfl⟩, hcond⟩

/-- Witness for C1 on a concrete one-state MDP. -/
theorem policy_evaluation_converges_witness :
    ∃ fuel V,
      policy_evaluation (fun _ : Fin 1 => (0 : Fin 1)) (fun _ _ _ => (1 : ℚ))
        (fun _ _ => (1 : ℚ)) (1 / 2) (1 / 4) fuel = some V
      ∧ (∃ j, V = (evalStep (fun _ : Fin 1 => (0 : Fin 1)) (fun _ _ _ => (1 : ℚ))
          (fun _ _ => (1 : ℚ)) (1 / 2))^[j] fun _ => 0)
      ∧ maxAbs (fun s => evalStep (fun _ : Fin 1 => (0 : Fin 1)) (fun _ _ _ => (1 : ℚ))
          (fun _ _ => (1 : ℚ)) (1 / 2) V s - V s) < 1 / 4 :=
  policy_evaluation_converges _ _ _ _ _ (fun _ _ _ => by norm_num)
    (fun _ _ => by simp) (by norm_num) (by norm_num) (by norm_num)

/-! Properties of the first-occurrence argmax. -/

/-- Generic accumulator form of `firstArgmax`. -/
def argmaxFold {n : ℕ} (f : Fin n → ℚ) (l : List (Fin n)) (b : Fin n) : Fin n :=
  l.foldl (fun best a => if f best < f a then a else best) b

lemma argmaxFold_spec {n : ℕ} (f : Fin n → ℚ) :
    ∀ (l : List (Fin n)) (b : Fin n), l.Pairwise (· < ·) →
      f b ≤ f (argmaxFold f l b)
      ∧ (∀ a ∈ l, f a ≤ f (argmaxFold f l b))
      ∧ (argmaxFold f l b = b ∨ (argmaxFold f l b ∈ l ∧ f b < f (argmaxFold f l b)))
      ∧ (∀ a ∈ l, f a = f (argmaxFold f l b)
          → argmaxFold f l b = b ∨ argmaxFold f l b ≤ a) := by
  intro l
  induction l with
  | nil =>
    intro b _
    exact ⟨le_rfl, by simp, Or.inl rfl, by simp⟩
  | cons h t ih =>
    intro b hpw
    rw [List.pairwise_cons] at hpw
    obtain ⟨hlt, hpt⟩ := hpw
    by_cases hbh : f b < f h
    · have hstep : argmaxFold f (h :: t) b = argmaxFold f t h := by
        simp [argmaxFold, hbh]
      obtain ⟨ih1, ih2, ih3, ih4⟩ := ih h hpt
      rw [hstep]
      refine ⟨le_trans (le_of_lt hbh) ih1, ?_, ?_, ?_⟩
      · intro a ha
        rcases List.mem_cons.mp ha with rfl | hat
        · exact ih1
        · exact ih2 a hat
      · rcases ih3 with h3 | ⟨hmem, hflt⟩
        · exact Or.inr ⟨by rw [h3]; exact List.mem_cons_self h t, by rw [h3]; exact hbh⟩
        · exact Or.inr ⟨List.mem_cons_of_mem h hmem, lt_trans hbh hflt⟩
      · intro a ha hfa
        rcases List.mem_cons.mp ha with rfl | hat
        · rcases ih3 with h3 | ⟨-, hflt⟩
          · exact Or.inr (le_of_eq h3)
          · exact absurd hfa (ne_of_lt hflt)
        · rcases ih4 a hat hfa with h4 | h4
          · exact Or.inr (by rw [h4]; exact le_of_lt (hlt a hat))
          · exact Or.inr h4
    · have hstep : argmaxFold f (h :: t) b = argmaxFold f t b := by
        simp [argmaxFold, hbh]
      obtain ⟨ih1, ih2, ih3, ih4⟩ := ih b hpt
      rw [hstep]
      have hhb : f h ≤ f b := not_lt.mp hbh
      refine ⟨ih1, ?_, ?_, ?_⟩
      · intro a ha
        rcases List.mem_cons.mp ha with rfl | hat
        · exact le_trans hhb ih1
        · exact ih2 a hat
      · rcases ih3 with h3 | ⟨hmem, hflt⟩
        · exact Or.inl h3
        · exact Or.inr ⟨List.mem_cons_of_mem h hmem, hflt⟩
      · intro a ha hfa
        rcases List.mem_cons.mp ha with rfl | hat
        · rcases ih3 with h3 | ⟨-, hflt⟩
          · exact Or.inl h3
          · rw [← hfa] at hflt
            exact absurd hflt (not_lt.mpr hhb)
        · exact ih4 a hat hfa

lemma firstArgmax_le {nA : ℕ} [NeZero nA] (f : Fin nA → ℚ) (a : Fin nA) :
    f a ≤ f (firstArgmax f) :=
  (argmaxFold_spec f (List.finRange nA) 0 (List.pairwise_lt_finRange nA)).2.1 a
    (List.mem_finRange a)

lemma firstArgmax_min {nA : ℕ} [NeZero nA] (f : Fin nA → ℚ) (a : Fin nA)
    (h : f a = f (firstArgmax f)) : firstArgmax f ≤ a := by
  rcases (argmaxFold_spec f (List.finRange nA) 0 (List.pairwise_lt_finRange nA)).2.2.2 a
      (List.mem_finRange a) h with h0 | hle
  · rw [show firstArgmax f = argmaxFold f (List.finRange nA) 0 from rfl, h0]
    exact Fin.zero_le' a
  · exact hle

/-- C2: for every value function `V` and MDP data, `policy_improvement`
returns `Q` with `Q[s,a] = Σ_{s'} T[s,a,s'] * (R_sa[s,a] + gamma * V[s'])`
and a greedy policy `pi_new` with `pi_new[s]` attaining `max_a Q[s,a]`;
when several actions attain the maximum, `pi_new[s]` is the lowest such
action index. -/
theorem policy_improvement_spec {nS nA : ℕ} [NeZero nA] (V : Fin nS → ℚ)
    (T : Fin nS → Fin nA → Fin nS → ℚ) (R_sa : Fin nS → Fin nA → ℚ) (gamma : ℚ) :
    (∀ s a, (policy_improvement V T R_sa gamma).1 s a
        = ∑ s_next, T s a s_next * (R_sa s a + gamma * V s_next))
    ∧ (∀ s a, (policy_improvement V T R_sa gamma).1 s a
        ≤ (policy_improvement V T R_sa gamma).1 s ((policy_improvement V T R_sa gamma).2 s))
    ∧ (∀ s a, (policy_improvement V T R_sa gamma).1 s a
          = (policy_improvement V T R_sa gamma).1 s ((policy_improvement V T R_sa gamma).2 s)
        → (policy_improvement V T R_sa gamma).2 s ≤ a) := by
  refine ⟨fun s a => rfl, fun s a => ?_, fun s a h => ?_⟩
  · exact firstArgmax_le (fun a => Qof V T R_sa gamma s a) a
  · exact firstArgmax_min (fun a => Qof V T R_sa gamma s a) a h

/-- Concrete one-state, two-action data for the C2 witness (the two
actions tie in Q-value). -/
def wV1 : Fin 1 → ℚ := fun _ => 0

def wT2 : Fin 1 → Fin 2 → Fin 1 → ℚ := fun _ _ _ => 1

def wR2 : Fin 1 → Fin 2 → ℚ := fun _ _ => 3

/-- Witness for C2 at a concrete two-action input with a Q-value tie. -/
theorem policy_improvement_spec_witness :
    (∀ s a, (policy_improvement wV1 wT2 wR2 (1 / 2)).1 s a
        = ∑ s_next, wT2 s a s_next * (wR2 s a + 1 / 2 * wV1 s_next))
    ∧ (∀ s a, (policy_improvement wV1 wT2 wR2 (1 / 2)).1 s a
        ≤ (policy_improvement wV1 wT2 wR2 (1 / 2)).1 s
          ((policy_improvement wV1 wT2 wR2 (1 / 2)).2 s))
    ∧ (∀ s a, (policy_improvement wV1 wT2 wR2 (1 / 2)).1 s a
          = (policy_improvement wV1 wT2 wR2 (1 / 2)).1 s
            ((policy_improvement wV1 wT2 wR2 (1 / 2)).2 s)
        → (policy_improvement wV1 wT2 wR2 (1 / 2)).2 s ≤ a) :=
  policy_improvement_spec wV1 wT2 wR2 (1 / 2)

/-- Value `0` of `maxAbs` on the zero function. -/
lemma maxAbs_zero {n : ℕ} : maxAbs (fun _ : Fin n => (0 : ℚ)) = 0 :=
  le_antisymm (maxAbs_le le_rfl fun s => by simp) (maxAbs_nonneg _)

/-- C10: the evaluation loop returns the iterate from before the final
Bellman update: it breaks as soon as `max_s |V_new[s] - V[s]| < epsilon`
and returns the old `V`, not `V_new`; in particular when every reward
along the policy is zero, the very first update already satisfies the
stopping test and the returned value function is exactly all-zeros. -/
theorem policy_evaluation_returns_pre_update {nS nA : ℕ} (pi : Fin nS → Fin nA)
    (T : Fin nS → Fin nA → Fin nS → ℚ) (R_sa : Fin nS → Fin nA → ℚ)
    (gamma epsilon : ℚ) :
    (∀ (V : Fin nS → ℚ) (fuel : ℕ),
        maxAbs (fun s => evalStep pi T R_sa gamma V s - V s) < epsilon →
        policyEvalAux pi T R_sa gamma epsilon (fuel + 1) V = some V)
    ∧ (0 < epsilon → (∀ s, R_sa s (pi s) = 0) →
        ∀ fuel : ℕ, policy_evaluation pi T R_sa gamma epsilon (fuel + 1)
          = some fun _ => 0) := by
  have part1 : ∀ (V : Fin nS → ℚ) (fuel : ℕ),
      maxAbs (fun s => evalStep pi T R_sa gamma V s - V s) < epsilon →
      policyEvalAux pi T R_sa gamma epsilon (fuel + 1) V = some V := by
    intro V fuel hc
    simp only [policyEvalAux]
    rw [if_pos hc]
  refine ⟨part1, fun he hR fuel => ?_⟩
  have hdiff : (fun s => evalStep pi T R_sa gamma (fun _ => 0) s - (fun _ : Fin nS => (0 : ℚ)) s)
      = fun _ : Fin nS => (0 : ℚ) := by
    funext s
    unfold evalStep
    simp [hR s]
  have hcond : maxAbs (fun s =>
      evalStep pi T R_sa gamma (fun _ => 0) s - (fun _ : Fin nS => (0 : ℚ)) s) < epsilon := by
    rw [hdiff, maxAbs_zero]
    exact he
  exact part1 (fun _ => 0) fuel hcond

/-- Witness for C10: a one-state MDP with reward `0`, where evaluation
stops immediately and returns the all-zeros vector. -/
theorem policy_evaluation_returns_pre_update_witness :
    policy_evaluation (fun _ : Fin 1 => (0 : Fin 1)) (fun _ _ _ => (1 : ℚ))
      (fun _ _ => (0 : ℚ)) (9 / 10) (1 / 4) (0 + 1) = some fun _ => 0 :=
  (policy_evaluation_returns_pre_update (fun _ : Fin 1 => (0 : Fin 1)) (fun _ _ _ => (1 : ℚ))
    (fun _ _ => (0 : ℚ)) (9 / 10) (1 / 4)).2 (by norm_num) (fun s => rfl) 0

/-! The driver loop: characterization of a terminating run. -/

lemma policyIterAux_spec {nS nA : ℕ} [NeZero nA] (T : Fin nS → Fin nA → Fin nS → ℚ)
    (R_sa : Fin nS → Fin nA → ℚ) (gamma epsilon : ℚ) (inner : ℕ) :
    ∀ (fuel : ℕ) (pi : Fin nS → Fin nA) (s0 : ℕ) (Q : Fin nS → Fin nA → ℚ)
      (pf : Fin nS → Fin nA) (steps : ℕ),
      policyIterAux T R_sa gamma epsilon inner fuel pi s0 = some (Q, pf, steps) →
      s0 + 1 ≤ steps
      ∧ ∃ V, policy_evaluation pf T R_sa gamma epsilon inner = some V
          ∧ Q = Qof V T R_sa gamma ∧ piOf V T R_sa gamma = pf := by
  intro fuel
  induction fuel with
  | zero =>
    intro pi s0 Q pf steps h
    simp [policyIterAux] at h
  | succ f ih =>
    intro pi s0 Q pf steps h
    simp only [policyIterAux] at h
    split at h
    · exact absurd h (by simp)
    · rename_i V heval
      split at h
      · rename_i hpi
        simp only [Option.some.injEq, Prod.mk.injEq] at h
        obtain ⟨hQ, hpf, hsteps⟩ := h
        refine ⟨by omega, V, ?_, hQ.symm, ?_⟩
        · rw [← hpf]
          exact heval
        · rw [← hpf]
          exact hpi
      · have := ih _ _ _ _ _ h
        exact ⟨by omega, this.2⟩

/-- C3: whenever `policy_iteration` returns `(Q, pi, steps)`, the loop
ran at least one evaluation-improvement round (`steps ≥ 1`, counting
from 1 for the first pass), the returned policy is a fixed point of
improvement applied to its own evaluation (`pi_new = pi` element-wise at
exit), and the returned `Q` is the Q-table computed from that final
evaluation. -/
theorem policy_iteration_loop_spec {nS nA : ℕ} [NeZero nA]
    (Qinit : Fin nS → Fin nA → ℚ) (pi0 : Fin nS → Fin nA)
    (T : Fin nS → Fin nA → Fin nS → ℚ) (R_sa : Fin nS → Fin nA → ℚ)
    (gamma epsilon : ℚ) (inner fuel : ℕ) (Q : Fin nS → Fin nA → ℚ)
    (pf : Fin nS → Fin nA) (steps : ℕ)
    (h : policy_iteration Qinit pi0 T R_sa gamma epsilon inner fuel = some (Q, pf, steps)) :
    1 ≤ steps
    ∧ ∃ V, policy_evaluation pf T R_sa gamma epsilon inner = some V
        ∧ Q = Qof V T R_sa gamma ∧ piOf V T R_sa gamma = pf := by
  have := policyIterAux_spec T R_sa gamma epsilon inner fuel pi0 0 Q pf steps h
  exact ⟨by omega, this.2⟩

/-- Unfolding of one evaluation-loop round that stops. -/
lemma policyEvalAux_stop {nS nA : ℕ} {pi : Fin nS → Fin nA} {T : Fin nS → Fin nA → Fin nS → ℚ}
    {R_sa : Fin nS → Fin nA → ℚ} {gamma epsilon : ℚ} {fuel : ℕ} {V : Fin nS → ℚ}
    (h : maxAbs (fun s => evalStep pi T R_sa gamma V s - V s) < epsilon) :
    policyEvalAux pi T R_sa gamma epsilon (fuel + 1) V = some V := by
  simp only [policyEvalAux]
  rw [if_pos h]

/-- Unfolding of one evaluation-loop round that continues. -/
lemma policyEvalAux_go {nS nA : ℕ} {pi : Fin nS → Fin nA} {T : Fin nS → Fin nA → Fin nS → ℚ}
    {R_sa : Fin nS → Fin nA → ℚ} {gamma epsilon : ℚ} {fuel : ℕ} {V : Fin nS → ℚ}
    (h : ¬ maxAbs (fun s => evalStep pi T R_sa gamma V s - V s) < epsilon) :
    policyEvalAux pi T R_sa gamma epsilon (fuel + 1) V
      = policyEvalAux pi T R_sa gamma epsilon fuel (evalStep pi T R_sa gamma V) := by
  simp only [policyEvalAux]
  rw [if_neg h]

/-- Unfolding of one driver round that stops (improved policy equals the
current one). -/
lemma policyIterAux_step_stop {nS nA : ℕ} [NeZero nA] {T : Fin nS → Fin nA → Fin nS → ℚ}
    {R_sa : Fin nS → Fin nA → ℚ} {gamma epsilon : ℚ} {inner fuel : ℕ}
    {pi : Fin nS → Fin nA} {s0 : ℕ} {V : Fin nS → ℚ}
    (hV : policy_evaluation pi T R_sa gamma epsilon inner = some V)
    (hpi : piOf V T R_sa gamma = pi) :
    policyIterAux T R_sa gamma epsilon inner (fuel + 1) pi s0
      = some (Qof V T R_sa gamma, pi, s0 + 1) := by
  simp only [policyIterAux, hV]
  rw [if_pos hpi]

/-- Unfolding of one driver round that continues with the improved
policy. -/
lemma policyIterAux_step_go {nS nA : ℕ} [NeZero nA] {T : Fin nS → Fin nA → Fin nS → ℚ}
    {R_sa : Fin nS → Fin nA → ℚ} {gamma epsilon : ℚ} {inner fuel : ℕ}
    {pi : Fin nS → Fin nA} {s0 : ℕ} {V : Fin nS → ℚ}
    (hV : policy_evaluation pi T R_sa gamma epsilon inner = some V)
    (hpi : piOf V T R_sa gamma ≠ pi) :
    policyIterAux T R_sa gamma epsilon inner (fuel + 1) pi s0
      = policyIterAux T R_sa gamma epsilon inner fuel (piOf V T R_sa gamma) (s0 + 1) := by
  simp only [policyIterAux, hV]
  rw [if_neg hpi]

/-- Unfolding of the driver when the inner evaluation loop does not
finish. -/
lemma policyIterAux_eval_none {nS nA : ℕ} [NeZero nA] {T : Fin nS → Fin nA → Fin nS → ℚ}
    {R_sa : Fin nS → Fin nA → ℚ} {gamma epsilon : ℚ} {inner fuel : ℕ}
    {pi : Fin nS → Fin nA} {s0 : ℕ}
    (hV : policy_evaluation pi T R_sa gamma epsilon inner = none) :
    policyIterAux T R_sa gamma epsilon inner (fuel + 1) pi s0 = none := by
  simp only [policyIterAux, hV]

/-- Concrete one-state, one-action MDP used by several witnesses. -/
def w1Pi : Fin 1 → Fin 1 := fun _ => 0

def w1T : Fin 1 → Fin 1 → Fin 1 → ℚ := fun _ _ _ => 1

def w1R0 : Fin 1 → Fin 1 → ℚ := fun _ _ => 0

def w1Q0 : Fin 1 → Fin 1 → ℚ := fun _ _ => 0

/-- On the concrete one-state MDP with zero reward, one evaluation round
stops immediately at the all-zeros value function. -/
lemma w1_eval : policy_evaluation w1Pi w1T w1R0 (1 / 2) (1 / 100) 1 = some fun _ => 0 := by
  have hstep : (fun s => evalStep w1Pi w1T w1R0 (1 / 2) (fun _ => 0) s - (fun _ : Fin 1 => (0 : ℚ)) s)
      = fun _ : Fin 1 => (0 : ℚ) := by
    funext s
    simp [evalStep, w1T, w1R0]
  show policyEvalAux w1Pi w1T w1R0 (1 / 2) (1 / 100) (0 + 1) (fun _ => 0) = some fun _ => 0
  apply policyEvalAux_stop
  rw [hstep, maxAbs_zero]
  norm_num

/-- On a one-action MDP every policy-type value is `w1Pi`. -/
lemma w1_piOf (V : Fin 1 → ℚ) : piOf V w1T w1R0 (1 / 2) = w1Pi := by
  funext s
  exact Subsingleton.elim _ _

/-- Q-table computed from the all-zeros value function on the concrete
one-state MDP. -/
lemma w1_Qof : Qof (fun _ => 0) w1T w1R0 (1 / 2) = w1Q0 := by
  funext s a
  simp [Qof, w1T, w1R0, w1Q0]

/-- One full driver run on the concrete one-state MDP. -/
lemma w1_iter : policy_iteration w1Q0 w1Pi w1T w1R0 (1 / 2) (1 / 100) 1 1
    = some (w1Q0, w1Pi, 1) := by
  show policyIterAux w1T w1R0 (1 / 2) (1 / 100) 1 (0 + 1) w1Pi 0 = some (w1Q0, w1Pi, 1)
  rw [policyIterAux_step_stop w1_eval (w1_piOf _), w1_Qof]

/-- Witness for C3 on a concrete one-state, one-action MDP where the
driver stops after one round. -/
theorem policy_iteration_loop_spec_witness :
    policy_iteration w1Q0 w1Pi w1T w1R0 (1 / 2) (1 / 100) 1 1 = some (w1Q0, w1Pi, 1)
    ∧ (1 ≤ 1
      ∧ ∃ V, policy_evaluation w1Pi w1T w1R0 (1 / 2) (1 / 100) 1 = some V
          ∧ w1Q0 = Qof V w1T w1R0 (1 / 2) ∧ piOf V w1T w1R0 (1 / 2) = w1Pi) :=
  ⟨w1_iter, policy_iteration_loop_spec _ _ _ _ _ _ _ _ _ _ _ w1_iter⟩

/-! Orbit of the one-round policy map, for the step-count bound. -/

/-- Iteration of a partial function: `optIter g n x` is the `n`-th image
of `x` under `g`, `none` as soon as `g` is undefined along the way. -/
def optIter {P : Type} (g : P → Option P) : ℕ → P → Option P
  | 0, x => some x
  | n + 1, x =>
    match g x with
    | none => none
    | some y => optIter g n y

lemma optIter_succ_out {P : Type} (g : P → Option P) (n : ℕ) (x : P) :
    optIter g (n + 1) x = (optIter g n x).bind g := by
  induction n generalizing x with
  | zero =>
    cases hg : g x <;> simp [optIter, hg]
  | succ n ih =>
    cases hg : g x with
    | none => simp [optIter, hg]
    | some y =>
      have l : optIter g (n + 1 + 1) x = optIter g (n + 1) y := by simp [optIter, hg]
      have r : optIter g (n + 1) x = optIter g n y := by simp [optIter, hg]
      rw [l, r, ih]

lemma optIter_some_of_le {P : Type} (g : P → Option P) :
    ∀ (m : ℕ), ∀ (i : ℕ) (x ρ : P), optIter g m x = some ρ → i ≤ m →
      ∃ τ, optIter g i x = some τ := by
  intro m
  induction m with
  | zero =>
    intro i x ρ h hi
    have : i = 0 := by omega
    subst this
    exact ⟨x, rfl⟩
  | succ m ih =>
    intro i x ρ h hi
    cases hg : g x with
    | none => rw [show optIter g (m + 1) x = none by simp [optIter, hg]] at h; exact absurd h (by simp)
    | some y =>
      have h' : optIter g m y = some ρ := by
        have : optIter g (m + 1) x = optIter g m y := by simp [optIter, hg]
        rw [← this]
        exact h
      cases i with
      | zero => exact ⟨x, rfl⟩
      | succ i' =>
        obtain ⟨τ, hτ⟩ := ih i' y ρ h' (by omega)
        exact ⟨τ, by simp [optIter, hg, hτ]⟩

lemma optIter_stationary {P : Type} (g : P → Option P) (x ρ : P) (m : ℕ)
    (hm : optIter g m x = some ρ) (hfix : g ρ = some ρ) :
    ∀ n, m ≤ n → optIter g n x = some ρ := by
  intro n hn
  induction n, hn using Nat.le_induction with
  | base => exact hm
  | succ n hmn ih =>
    rw [optIter_succ_out, ih]
    exact hfix

lemma optIter_period {P : Type} (g : P → Option P) (x : P) (i p : ℕ)
    (hp : optIter g i x = optIter g (i + p) x) :
    ∀ t, optIter g (i + t) x = optIter g (i + p + t) x := by
  intro t
  induction t with
  | zero => simpa using hp
  | succ t ih =>
    have l : optIter g (i + (t + 1)) x = (optIter g (i + t) x).bind g := by
      rw [show i + (t + 1) = i + t + 1 by ring, optIter_succ_out]
    have r : optIter g (i + p + (t + 1)) x = (optIter g (i + p + t) x).bind g := by
      rw [show i + p + (t + 1) = i + p + t + 1 by ring, optIter_succ_out]
    rw [l, r, ih]

lemma optIter_period_mul {P : Type} (g : P → Option P) (x : P) (i p : ℕ)
    (hp : optIter g i x = optIter g (i + p) x) :
    ∀ (k t : ℕ), optIter g (i + t) x = optIter g (i + k * p + t) x := by
  intro k
  induction k with
  | zero => intro t; simp
  | succ k ih =>
    intro t
    rw [ih t]
    have hper := optIter_period g x i p hp (k * p + t)
    rw [show i + k * p + t = i + (k * p + t) by ring, hper,
      show i + p + (k * p + t) = i + (k + 1) * p + t by ring]

lemma optIter_no_early_repeat {P : Type} (g : P → Option P) (x ρ : P) (m : ℕ)
    (hm : optIter g m x = some ρ) (hfix : g ρ = some ρ)
    (hne : ∀ i < m, optIter g (i + 1) x ≠ optIter g i x) :
    ∀ i j, i < j → j ≤ m → optIter g i x ≠ optIter g j x := by
  intro i j hij hjm heq
  have hstat := optIter_stationary g x ρ m hm hfix
  have hp1 : 1 ≤ j - i := by omega
  have hper : optIter g i x = optIter g (i + (j - i)) x := by
    rw [show i + (j - i) = j by omega]
    exact heq
  have hmul := optIter_period_mul g x i (j - i) hper
  have hmp : m ≤ m * (j - i) := by
    have := Nat.mul_le_mul_left m hp1
    omega
  have hi : optIter g i x = some ρ := by
    have h1 := hmul m 0
    rw [Nat.add_zero, Nat.add_zero] at h1
    rw [h1]
    exact hstat (i + m * (j - i)) (by omega)
  have hi1 : optIter g (i + 1) x = some ρ := by
    have h1 := hmul m 1
    rw [h1]
    exact hstat (i + m * (j - i) + 1) (by omega)
  exact hne i (by omega) (by rw [hi, hi1])

lemma optIter_run_card {P : Type} [Fintype P] (g : P → Option P) (x ρ : P) (m : ℕ)
    (hm : optIter g m x = some ρ) (hfix : g ρ = some ρ)
    (hne : ∀ i < m, optIter g (i + 1) x ≠ optIter g i x) :
    m + 1 ≤ Fintype.card P := by
  have hsome : ∀ i : Fin (m + 1), ∃ τ, optIter g (i : ℕ) x = some τ := fun i =>
    optIter_some_of_le g m i x ρ hm (by omega)
  choose f hf using hsome
  have hinj : Function.Injective f := by
    intro i j hfe
    by_contra hne'
    have hne'' : (i : ℕ) ≠ (j : ℕ) := fun h => hne' (Fin.ext h)
    rcases Nat.lt_or_ge (i : ℕ) (j : ℕ) with h | h
    · exact optIter_no_early_repeat g x ρ m hm hfix hne i j h (by omega)
        (by rw [hf i, hf j, hfe])
    · have hj : (j : ℕ) < (i : ℕ) := by omega
      exact optIter_no_early_repeat g x ρ m hm hfix hne j i hj (by omega)
        (by rw [hf i, hf j, hfe])
  calc m + 1 = Fintype.card (Fin (m + 1)) := (Fintype.card_fin _).symm
    _ ≤ Fintype.card P := Fintype.card_le_of_injective f hinj

/-- One round of the driver as a map on policies: evaluate, then take
the greedy policy (with the inner evaluation fuel of the driver). -/
def gOpt {nS nA : ℕ} [NeZero nA] (T : Fin nS → Fin nA → Fin nS → ℚ)
    (R_sa : Fin nS → Fin nA → ℚ) (gamma epsilon : ℚ) (inner : ℕ)
    (pi : Fin nS → Fin nA) : Option (Fin nS → Fin nA) :=
  (policy_evaluation pi T R_sa gamma epsilon inner).map fun V => piOf V T R_sa gamma

/-- The evaluation loop is deterministic: two successful runs from the
same start agree, whatever their fuels. -/
lemma policyEvalAux_det {nS nA : ℕ} (pi : Fin nS → Fin nA)
    (T : Fin nS → Fin nA → Fin nS → ℚ) (R_sa : Fin nS → Fin nA → ℚ)
    (gamma epsilon : ℚ) :
    ∀ (f1 f2 : ℕ) (V W W' : Fin nS → ℚ),
      policyEvalAux pi T R_sa gamma epsilon f1 V = some W →
      policyEvalAux pi T R_sa gamma epsilon f2 V = some W' → W = W' := by
  intro f1
  induction f1 with
  | zero =>
    intro f2 V W W' h1
    simp [policyEvalAux] at h1
  | succ f ih =>
    intro f2 V W W' h1 h2
    cases f2 with
    | zero => simp [policyEvalAux] at h2
    | succ f2' =>
      by_cases hc : maxAbs (fun s => evalStep pi T R_sa gamma V s - V s) < epsilon
      · rw [policyEvalAux_stop hc] at h1 h2
        rw [← Option.some_inj.mp h1, ← Option.some_inj.mp h2]
      · rw [policyEvalAux_go hc] at h1 h2
        exact ih f2' _ W W' h1 h2

lemma gOpt_det {nS nA : ℕ} [NeZero nA] {T : Fin nS → Fin nA → Fin nS → ℚ}
    {R_sa : Fin nS → Fin nA → ℚ} {gamma epsilon : ℚ} {i1 i2 : ℕ}
    {pi ρ1 ρ2 : Fin nS → Fin nA}
    (h1 : gOpt T R_sa gamma epsilon i1 pi = some ρ1)
    (h2 : gOpt T R_sa gamma epsilon i2 pi = some ρ2) : ρ1 = ρ2 := by
  unfold gOpt at h1 h2
  cases hV1 : policy_evaluation pi T R_sa gamma epsilon i1 with
  | none => rw [hV1] at h1; simp at h1
  | some V1 =>
    cases hV2 : policy_evaluation pi T R_sa gamma epsilon i2 with
    | none => rw [hV2] at h2; simp at h2
    | some V2 =>
      rw [hV1] at h1
      rw [hV2] at h2
      simp only [Option.map_some'] at h1 h2
      have hV : V1 = V2 := policyEvalAux_det pi T R_sa gamma epsilon i1 i2 _ _ _ hV1 hV2
      rw [← Option.some_inj.mp h1, ← Option.some_inj.mp h2, hV]

/-- Decomposition of a terminating driver run as an orbit of the
one-round policy map reaching its first fixed point. -/
lemma policyIterAux_orbit {nS nA : ℕ} [NeZero nA] (T : Fin nS → Fin nA → Fin nS → ℚ)
    (R_sa : Fin nS → Fin nA → ℚ) (gamma epsilon : ℚ) (inner : ℕ) :
    ∀ (fuel : ℕ) (pi : Fin nS → Fin nA) (s0 : ℕ) (Q : Fin nS → Fin nA → ℚ)
      (pf : Fin nS → Fin nA) (steps : ℕ),
      policyIterAux T R_sa gamma epsilon inner fuel pi s0 = some (Q, pf, steps) →
      ∃ m, steps = s0 + m + 1
        ∧ optIter (gOpt T R_sa gamma epsilon inner) m pi = some pf
        ∧ gOpt T R_sa gamma epsilon inner pf = some pf
        ∧ ∀ i < m, optIter (gOpt T R_sa gamma epsilon inner) (i + 1) pi
            ≠ optIter (gOpt T R_sa gamma epsilon inner) i pi := by
  intro fuel
  induction fuel with
  | zero =>
    intro pi s0 Q pf steps h
    simp [policyIterAux] at h
  | succ f ih =>
    intro pi s0 Q pf steps h
    cases hV : policy_evaluation pi T R_sa gamma epsilon inner with
    | none => rw [policyIterAux_eval_none hV] at h; exact absurd h (by simp)
    | some V =>
      have hgpi : gOpt T R_sa gamma epsilon inner pi = some (piOf V T R_sa gamma) := by
        unfold gOpt
        rw [hV]
        rfl
      by_cases hpi : piOf V T R_sa gamma = pi
      · rw [policyIterAux_step_stop hV hpi] at h
        simp only [Option.some.injEq, Prod.mk.injEq] at h
        obtain ⟨hQ, hpf, hsteps⟩ := h
        refine ⟨0, by omega, by simp [optIter, hpf], ?_, fun i hi => absurd hi (Nat.not_lt_zero i)⟩
        rw [← hpf, hgpi, hpi]
      · rw [policyIterAux_step_go hV hpi] at h
        obtain ⟨m', hsteps, horb, hfix, hne⟩ := ih (piOf V T R_sa gamma) (s0 + 1) Q pf steps h
        refine ⟨m' + 1, by omega, ?_, hfix, ?_⟩
        · have hred : optIter (gOpt T R_sa gamma epsilon inner) (m' + 1) pi
              = optIter (gOpt T R_sa gamma epsilon inner) m' (piOf V T R_sa gamma) := by
            simp [optIter, hgpi]
          rw [hred]
          exact horb
        · intro i hi
          cases i with
          | zero =>
            have h1 : optIter (gOpt T R_sa gamma epsilon inner) 1 pi
                = some (piOf V T R_sa gamma) := by simp [optIter, hgpi]
            have h0 : optIter (gOpt T R_sa gamma epsilon inner) 0 pi = some pi := rfl
            rw [h1, h0]
            simp [hpi]
          | succ i' =>
            have e1 : optIter (gOpt T R_sa gamma epsilon inner) (i' + 1 + 1) pi
                = optIter (gOpt T R_sa gamma epsilon inner) (i' + 1) (piOf V T R_sa gamma) := by
              simp [optIter, hgpi]
            have e2 : optIter (gOpt T R_sa gamma epsilon inner) (i' + 1) pi
                = optIter (gOpt T R_sa gamma epsilon inner) i' (piOf V T R_sa gamma) := by
              simp [optIter, hgpi]
            rw [e1, e2]
            exact hne i' (by omega)

/-- C4 (amended): the driver need not terminate (see the accompanying
counterexample), but every run of `policy_iteration` that does return
performs at most `nA ^ nS` improvement rounds: the visited policies up
to the first repeat are pairwise distinct deterministic policies, of
which there are only `nA ^ nS`. -/
theorem policy_iteration_steps_le_card {nS nA : ℕ} [NeZero nA]
    (Qinit : Fin nS → Fin nA → ℚ) (pi0 : Fin nS → Fin nA)
    (T : Fin nS → Fin nA → Fin nS → ℚ) (R_sa : Fin nS → Fin nA → ℚ)
    (gamma epsilon : ℚ) (inner fuel : ℕ) (Q : Fin nS → Fin nA → ℚ)
    (pf : Fin nS → Fin nA) (steps : ℕ)
    (h : policy_iteration Qinit pi0 T R_sa gamma epsilon inner fuel = some (Q, pf, steps)) :
    steps ≤ nA ^ nS := by
  obtain ⟨m, hsteps, horb, hfix, hne⟩ :=
    policyIterAux_orbit T R_sa gamma epsilon inner fuel pi0 0 Q pf steps h
  have hcard := optIter_run_card (gOpt T R_sa gamma epsilon inner) pi0 pf m horb hfix hne
  have hcf : Fintype.card (Fin nS → Fin nA) = nA ^ nS := by
    rw [Fintype.card_fun, Fintype.card_fin, Fintype.card_fin]
  rw [hcf] at hcard
  omega

/-- Witness for the amended C4 bound on the concrete one-state MDP. -/
theorem policy_iteration_steps_le_card_witness :
    policy_iteration w1Q0 w1Pi w1T w1R0 (1 / 2) (1 / 100) 1 1 = some (w1Q0, w1Pi, 1)
    ∧ 1 ≤ 1 ^ 1 :=
  ⟨w1_iter, policy_iteration_steps_le_card _ _ _ _ _ _ _ _ _ _ _ w1_iter⟩

/-! A valid MDP on which the driver never terminates: with `gamma = 1/2`
and `epsilon = 1/4` the epsilon-stopped evaluation makes the greedy
policy map cycle between two policies. -/

def cexT : Fin 2 → Fin 2 → Fin 2 → ℚ := ![![![0, 1], ![1, 0]], ![![0, 1], ![1, 0]]]

def cexR : Fin 2 → Fin 2 → ℚ := ![![-3, -1], ![-3, 3]]

def cexPi1 : Fin 2 → Fin 2 := ![1, 1]

def cexPi2 : Fin 2 → Fin 2 := ![0, 1]

def cexQ0 : Fin 2 → Fin 2 → ℚ := fun _ _ => 0

lemma maxAbs_fin_two (f : Fin 2 → ℚ) : maxAbs f = max |f 0| |f 1| := by
  apply le_antisymm
  · apply maxAbs_le (le_trans (abs_nonneg (f 0)) (le_max_left _ _))
    intro s
    fin_cases s
    · exact le_max_left _ _
    · exact le_max_right _ _
  · exact max_le (le_maxAbs f 0) (le_maxAbs f 1)

lemma firstArgmax_fin_two (f : Fin 2 → ℚ) : firstArgmax f = if f 0 < f 1 then 1 else 0 := by
  show (List.finRange 2).foldl (fun best a => if f best < f a then a else best) 0
      = if f 0 < f 1 then 1 else 0
  have hfr : List.finRange 2 = [0, 1] := by decide
  rw [hfr]
  show (if f (if f 0 < f 0 then 0 else 0) < f 1 then 1 else if f 0 < f 0 then 0 else 0)
      = if f 0 < f 1 then 1 else 0
  rw [if_neg (lt_irrefl (f 0))]

lemma cex_zero_vec : (fun _ : Fin 2 => (0 : ℚ)) = ![0, 0] := by
  funext s
  fin_cases s <;> simp

lemma cex_p1_s1 : evalStep cexPi1 cexT cexR (1 / 2) ![0, 0] = ![-1, 3] := by
  funext s
  fin_cases s <;> norm_num [evalStep, cexPi1, cexT, cexR, Fin.sum_univ_two]

lemma cex_p1_s2 : evalStep cexPi1 cexT cexR (1 / 2) ![-1, 3] = ![-3 / 2, 5 / 2] := by
  funext s
  fin_cases s <;> norm_num [evalStep, cexPi1, cexT, cexR, Fin.sum_univ_two]

lemma cex_p1_s3 : evalStep cexPi1 cexT cexR (1 / 2) ![-3 / 2, 5 / 2] = ![-7 / 4, 9 / 4] := by
  funext s
  fin_cases s <;> norm_num [evalStep, cexPi1, cexT, cexR, Fin.sum_univ_two]

lemma cex_p1_s4 : evalStep cexPi1 cexT cexR (1 / 2) ![-7 / 4, 9 / 4] = ![-15 / 8, 17 / 8] := by
  funext s
  fin_cases s <;> norm_num [evalStep, cexPi1, cexT, cexR, Fin.sum_univ_two]

lemma cex_p1_c1 : ¬ maxAbs (fun s => evalStep cexPi1 cexT cexR (1 / 2) ![0, 0] s - ![(0 : ℚ), 0] s) < 1 / 4 := by
  rw [cex_p1_s1]
  have hdiff : (fun s => ![(-1 : ℚ), 3] s - ![(0 : ℚ), 0] s) = ![(-1 : ℚ), 3] := by
    funext s
    fin_cases s <;> norm_num
  rw [hdiff, maxAbs_fin_two]
  norm_num

lemma cex_p1_c2 : ¬ maxAbs (fun s => evalStep cexPi1 cexT cexR (1 / 2) ![-1, 3] s - ![(-1 : ℚ), 3] s) < 1 / 4 := by
  rw [cex_p1_s2]
  have hdiff : (fun s => ![(-3 / 2 : ℚ), 5 / 2] s - ![(-1 : ℚ), 3] s) = ![(-1 / 2 : ℚ), -1 / 2] := by
    funext s
    fin_cases s <;> norm_num
  rw [hdiff, maxAbs_fin_two]
  norm_num [le_abs]

lemma cex_p1_c3 : ¬ maxAbs (fun s => evalStep cexPi1 cexT cexR (1 / 2) ![-3 / 2, 5 / 2] s - ![(-3 / 2 : ℚ), 5 / 2] s) < 1 / 4 := by
  rw [cex_p1_s3]
  have hdiff : (fun s => ![(-7 / 4 : ℚ), 9 / 4] s - ![(-3 / 2 : ℚ), 5 / 2] s) = ![(-1 / 4 : ℚ), -1 / 4] := by
    funext s
    fin_cases s <;> norm_num
  rw [hdiff, maxAbs_fin_two]
  norm_num [le_abs]

lemma cex_p1_c4 : maxAbs (fun s => evalStep cexPi1 cexT cexR (1 / 2) ![-7 / 4, 9 / 4] s - ![(-7 / 4 : ℚ), 9 / 4] s) < 1 / 4 := by
  rw [cex_p1_s4]
  have hdiff : (fun s => ![(-15 / 8 : ℚ), 17 / 8] s - ![(-7 / 4 : ℚ), 9 / 4] s) = ![(-1 / 8 : ℚ), -1 / 8] := by
    funext s
    fin_cases s <;> norm_num
  rw [hdiff, maxAbs_fin_two]
  norm_num [abs_lt]

/-- Evaluation of the first cycle policy stops at `V = (-7/4, 9/4)`. -/
lemma cex_eval_pi1 : policy_evaluation cexPi1 cexT cexR (1 / 2) (1 / 4) 4 = some ![-7 / 4, 9 / 4] := by
  show policyEvalAux cexPi1 cexT cexR (1 / 2) (1 / 4) (3 + 1) (fun _ => 0) = some ![-7 / 4, 9 / 4]
  rw [cex_zero_vec, policyEvalAux_go cex_p1_c1, cex_p1_s1]
  show policyEvalAux cexPi1 cexT cexR (1 / 2) (1 / 4) (2 + 1) ![-1, 3] = some ![-7 / 4, 9 / 4]
  rw [policyEvalAux_go cex_p1_c2, cex_p1_s2]
  show policyEvalAux cexPi1 cexT cexR (1 / 2) (1 / 4) (1 + 1) ![-3 / 2, 5 / 2] = some ![-7 / 4, 9 / 4]
  rw [policyEvalAux_go cex_p1_c3, cex_p1_s3]
  show policyEvalAux cexPi1 cexT cexR (1 / 2) (1 / 4) (0 + 1) ![-7 / 4, 9 / 4] = some ![-7 / 4, 9 / 4]
  exact policyEvalAux_stop cex_p1_c4

lemma cex_p2_s1 : evalStep cexPi2 cexT cexR (1 / 2) ![0, 0] = ![-3, 3] := by
  funext s
  fin_cases s <;> norm_num [evalStep, cexPi2, cexT, cexR, Fin.sum_univ_two]

lemma cex_p2_s2 : evalStep cexPi2 cexT cexR (1 / 2) ![-3, 3] = ![-3 / 2, 3 / 2] := by
  funext s
  fin_cases s <;> norm_num [evalStep, cexPi2, cexT, cexR, Fin.sum_univ_two]

lemma cex_p2_s3 : evalStep cexPi2 cexT cexR (1 / 2) ![-3 / 2, 3 / 2] = ![-9 / 4, 9 / 4] := by
  funext s
  fin_cases s <;> norm_num [evalStep, cexPi2, cexT, cexR, Fin.sum_univ_two]

lemma cex_p2_s4 : evalStep cexPi2 cexT cexR (1 / 2) ![-9 / 4, 9 / 4] = ![-15 / 8, 15 / 8] := by
  funext s
  fin_cases s <;> norm_num [evalStep, cexPi2, cexT, cexR, Fin.sum_univ_two]

lemma cex_p2_s5 : evalStep cexPi2 cexT cexR (1 / 2) ![-15 / 8, 15 / 8] = ![-33 / 16, 33 / 16] := by
  funext s
  fin_cases s <;> norm_num [evalStep, cexPi2, cexT, cexR, Fin.sum_univ_two]

lemma cex_p2_c1 : ¬ maxAbs (fun s => evalStep cexPi2 cexT cexR (1 / 2) ![0, 0] s - ![(0 : ℚ), 0] s) < 1 / 4 := by
  rw [cex_p2_s1]
  have hdiff : (fun s => ![(-3 : ℚ), 3] s - ![(0 : ℚ), 0] s) = ![(-3 : ℚ), 3] := by
    funext s
    fin_cases s <;> norm_num
  rw [hdiff, maxAbs_fin_two]
  norm_num [le_abs]

lemma cex_p2_c2 : ¬ maxAbs (fun s => evalStep cexPi2 cexT cexR (1 / 2) ![-3, 3] s - ![(-3 : ℚ), 3] s) < 1 / 4 := by
  rw [cex_p2_s2]
  have hdiff : (fun s => ![(-3 / 2 : ℚ), 3 / 2] s - ![(-3 : ℚ), 3] s) = ![(3 / 2 : ℚ), -3 / 2] := by
    funext s
    fin_cases s <;> norm_num
  rw [hdiff, maxAbs_fin_two]
  norm_num [le_abs]

lemma cex_p2_c3 : ¬ maxAbs (fun s => evalStep cexPi2 cexT cexR (1 / 2) ![-3 / 2, 3 / 2] s - ![(-3 / 2 : ℚ), 3 / 2] s) < 1 / 4 := by
  rw [cex_p2_s3]
  have hdiff : (fun s => ![(-9 / 4 : ℚ), 9 / 4] s - ![(-3 / 2 : ℚ), 3 / 2] s) = ![(-3 / 4 : ℚ), 3 / 4] := by
    funext s
    fin_cases s <;> norm_num
  rw [hdiff, maxAbs_fin_two]
  norm_num [le_abs]

lemma cex_p2_c4 : ¬ maxAbs (fun s => evalStep cexPi2 cexT cexR (1 / 2) ![-9 / 4, 9 / 4] s - ![(-9 / 4 : ℚ), 9 / 4] s) < 1 / 4 := by
  rw [cex_p2_s4]
  have hdiff : (fun s => ![(-15 / 8 : ℚ), 15 / 8] s - ![(-9 / 4 : ℚ), 9 / 4] s) = ![(3 / 8 : ℚ), -3 / 8] := by
    funext s
    fin_cases s <;> norm_num
  rw [hdiff, maxAbs_fin_two]
  norm_num [le_abs]

lemma cex_p2_c5 : maxAbs (fun s => evalStep cexPi2 cexT cexR (1 / 2) ![-15 / 8, 15 / 8] s - ![(-15 / 8 : ℚ), 15 / 8] s) < 1 / 4 := by
  rw [cex_p2_s5]
  have hdiff : (fun s => ![(-33 / 16 : ℚ), 33 / 16] s - ![(-15 / 8 : ℚ), 15 / 8] s) = ![(-3 / 16 : ℚ), 3 / 16] := by
    funext s
    fin_cases s <;> norm_num
  rw [hdiff, maxAbs_fin_two]
  norm_num [abs_lt]

/-- Evaluation of the second cycle policy stops at `V = (-15/8, 15/8)`. -/
lemma cex_eval_pi2 : policy_evaluation cexPi2 cexT cexR (1 / 2) (1 / 4) 5 = some ![-15 / 8, 15 / 8] := by
  show policyEvalAux cexPi2 cexT cexR (1 / 2) (1 / 4) (4 + 1) (fun _ => 0) = some ![-15 / 8, 15 / 8]
  rw [cex_zero_vec, policyEvalAux_go cex_p2_c1, cex_p2_s1]
  show policyEvalAux cexPi2 cexT cexR (1 / 2) (1 / 4) (3 + 1) ![-3, 3] = some ![-15 / 8, 15 / 8]
  rw [policyEvalAux_go cex_p2_c2, cex_p2_s2]
  show policyEvalAux cexPi2 cexT cexR (1 / 2) (1 / 4) (2 + 1) ![-3 / 2, 3 / 2] = some ![-15 / 8, 15 / 8]
  rw [policyEvalAux_go cex_p2_c3, cex_p2_s3]
  show policyEvalAux cexPi2 cexT cexR (1 / 2) (1 / 4) (1 + 1) ![-9 / 4, 9 / 4] = some ![-15 / 8, 15 / 8]
  rw [policyEvalAux_go cex_p2_c4, cex_p2_s4]
  show policyEvalAux cexPi2 cexT cexR (1 / 2) (1 / 4) (0 + 1) ![-15 / 8, 15 / 8] = some ![-15 / 8, 15 / 8]
  exact policyEvalAux_stop cex_p2_c5

/-- The greedy policy of the first stopping value is the second cycle
policy (with a Q-value tie at state 0, broken towards action 0). -/
lemma cex_greedy1 : piOf ![-7 / 4, 9 / 4] cexT cexR (1 / 2) = cexPi2 := by
  funext s
  have h : piOf ![-7 / 4, 9 / 4] cexT cexR (1 / 2) s
      = if Qof ![-7 / 4, 9 / 4] cexT cexR (1 / 2) s 0 < Qof ![-7 / 4, 9 / 4] cexT cexR (1 / 2) s 1
        then 1 else 0 :=
    firstArgmax_fin_two _
  rw [h]
  fin_cases s
  · rw [if_neg (by norm_num [Qof, cexT, cexR, Fin.sum_univ_two])]
    simp [cexPi2]
  · rw [if_pos (by norm_num [Qof, cexT, cexR, Fin.sum_univ_two])]
    simp [cexPi2]

/-- The greedy policy of the second stopping value is the first cycle
policy again. -/
lemma cex_greedy2 : piOf ![-15 / 8, 15 / 8] cexT cexR (1 / 2) = cexPi1 := by
  funext s
  have h : piOf ![-15 / 8, 15 / 8] cexT cexR (1 / 2) s
      = if Qof ![-15 / 8, 15 / 8] cexT cexR (1 / 2) s 0 < Qof ![-15 / 8, 15 / 8] cexT cexR (1 / 2) s 1
        then 1 else 0 :=
    firstArgmax_fin_two _
  rw [h]
  fin_cases s
  · rw [if_pos (by norm_num [Qof, cexT, cexR, Fin.sum_univ_two])]
    simp [cexPi1]
  · rw [if_pos (by norm_num [Qof, cexT, cexR, Fin.sum_univ_two])]
    simp [cexPi1]

lemma cex_g1_conc : gOpt cexT cexR (1 / 2) (1 / 4) 4 cexPi1 = some cexPi2 := by
  unfold gOpt
  rw [cex_eval_pi1]
  rw [Option.map_some', cex_greedy1]

lemma cex_g2_conc : gOpt cexT cexR (1 / 2) (1 / 4) 5 cexPi2 = some cexPi1 := by
  unfold gOpt
  rw [cex_eval_pi2]
  rw [Option.map_some', cex_greedy2]

lemma cex_pi_ne : cexPi2 ≠ cexPi1 := by
  intro h
  have h0 := congrFun h 0
  simp [cexPi1, cexPi2] at h0

/-- From either cycle policy, the driver loop never exits: whatever the
fuels, every round flips to the other policy. -/
lemma cex_iter_none : ∀ (fuel inner s0 : ℕ),
    policyIterAux cexT cexR (1 / 2) (1 / 4) inner fuel cexPi1 s0 = none
    ∧ policyIterAux cexT cexR (1 / 2) (1 / 4) inner fuel cexPi2 s0 = none := by
  intro fuel
  induction fuel with
  | zero => intro inner s0; exact ⟨rfl, rfl⟩
  | succ f ih =>
    intro inner s0
    constructor
    · cases hV : policy_evaluation cexPi1 cexT cexR (1 / 2) (1 / 4) inner with
      | none => exact policyIterAux_eval_none hV
      | some V =>
        have hg : gOpt cexT cexR (1 / 2) (1 / 4) inner cexPi1 = some (piOf V cexT cexR (1 / 2)) := by
          unfold gOpt
          rw [hV]
          rfl
        have hρ : piOf V cexT cexR (1 / 2) = cexPi2 := gOpt_det hg cex_g1_conc
        have hne : piOf V cexT cexR (1 / 2) ≠ cexPi1 := by
          rw [hρ]
          exact cex_pi_ne
        rw [policyIterAux_step_go hV hne, hρ]
        exact (ih inner (s0 + 1)).2
    · cases hV : policy_evaluation cexPi2 cexT cexR (1 / 2) (1 / 4) inner with
      | none => exact policyIterAux_eval_none hV
      | some V =>
        have hg : gOpt cexT cexR (1 / 2) (1 / 4) inner cexPi2 = some (piOf V cexT cexR (1 / 2)) := by
          unfold gOpt
          rw [hV]
          rfl
        have hρ : piOf V cexT cexR (1 / 2) = cexPi1 := gOpt_det hg cex_g2_conc
        have hne : piOf V cexT cexR (1 / 2) ≠ cexPi2 := by
          rw [hρ]
          exact fun h => cex_pi_ne h.symm
        rw [policyIterAux_step_go hV hne, hρ]
        exact (ih inner (s0 + 1)).1

/-- Counterexample to C4: `cexT` is a valid row-stochastic transition
tensor, `gamma = 1/2 ∈ [0,1)` and `epsilon = 1/4 > 0`, yet
`policy_iteration` never terminates from `cexPi1`: the greedy policies
of the epsilon-stopped evaluations cycle between `cexPi1` and `cexPi2`
forever. -/
theorem policy_iteration_no_termination_cex :
    (∀ s a s_next, 0 ≤ cexT s a s_next)
    ∧ (∀ s a, ∑ s_next, cexT s a s_next = 1)
    ∧ (0 : ℚ) ≤ 1 / 2 ∧ (1 / 2 : ℚ) < 1 ∧ (0 : ℚ) < 1 / 4
    ∧ ¬ ∃ inner fuel out,
        policy_iteration cexQ0 cexPi1 cexT cexR (1 / 2) (1 / 4) inner fuel = some out := by
  refine ⟨?_, ?_, by norm_num, by norm_num, by norm_num, ?_⟩
  · intro s a s_next
    fin_cases s <;> fin_cases a <;> fin_cases s_next <;> norm_num [cexT]
  · intro s a
    fin_cases s <;> fin_cases a <;> norm_num [cexT, Fin.sum_univ_two]
  · rintro ⟨inner, fuel, out, h⟩
    have hnone := (cex_iter_none fuel inner 0).1
    unfold policy_iteration at h
    rw [hnone] at h
    exact Option.noConfusion h

/-! Agent wrapper: fit idempotence, absence of validation, persistence. -/

def w1R1 : Fin 1 → Fin 1 → ℚ := fun _ _ => 1

def w1Tbad : Fin 1 → Fin 1 → Fin 1 → ℚ := fun _ _ _ => 1 / 2

def w1State : AgentState := ⟨1, 1, none, none, 0, false, "policy.npy"⟩

def w1StateFit : AgentState := ⟨1, 1, some [0], some [[0]], 1, true, "policy.npy"⟩

lemma fin1_policy_eq (f g : Fin 1 → Fin 1) : f = g :=
  funext fun _ => Subsingleton.elim _ _

lemma w1_eval_default : policy_evaluation w1Pi w1T w1R0 (1 / 2) defaultEpsilon 1
    = some fun _ => 0 := by
  have hstep : (fun s => evalStep w1Pi w1T w1R0 (1 / 2) (fun _ => 0) s
      - (fun _ : Fin 1 => (0 : ℚ)) s) = fun _ : Fin 1 => (0 : ℚ) := by
    funext s
    simp [evalStep, w1T, w1R0]
  show policyEvalAux w1Pi w1T w1R0 (1 / 2) defaultEpsilon (0 + 1) (fun _ => 0) = some fun _ => 0
  apply policyEvalAux_stop
  rw [hstep, maxAbs_zero]
  norm_num [defaultEpsilon]

lemma w1_iter_default : policy_iteration w1Q0 w1Pi w1T w1R0 (1 / 2) defaultEpsilon 1 1
    = some (w1Q0, w1Pi, 1) := by
  show policyIterAux w1T w1R0 (1 / 2) defaultEpsilon 1 (0 + 1) w1Pi 0 = some (w1Q0, w1Pi, 1)
  rw [policyIterAux_step_stop w1_eval_default (fin1_policy_eq _ _), w1_Qof]

/-- C5: `update_agent` is idempotent: a no-op on a fitted agent; on an
unfitted agent it zero-initializes `pi` and `Q`, runs the driver with
the supplied MDP data, stores the results and marks the agent fitted,
and any second call returns the fitted state unchanged, so `pi`, `Q`
and `steps` after two calls equal those after one. -/
theorem update_agent_idempotent {nS nA : ℕ} [NeZero nA] (T : Fin nS → Fin nA → Fin nS → ℚ)
    (R_sa : Fin nS → Fin nA → ℚ) (gamma : ℚ) (inner fuel : ℕ) (st : AgentState) :
    (st.policy_fitted = true → AgentState.update_agent T R_sa gamma inner fuel st = some st)
    ∧ (∀ st', AgentState.update_agent T R_sa gamma inner fuel st = some st' →
        st'.policy_fitted = true
        ∧ ∀ inner' fuel', AgentState.update_agent T R_sa gamma inner' fuel' st' = some st')
    ∧ (st.policy_fitted = false →
        AgentState.update_agent T R_sa gamma inner fuel st
          = (policy_iteration (fun _ _ => (0 : ℚ)) (fun _ => (0 : Fin nA)) T R_sa gamma
              defaultEpsilon inner fuel).map fun out =>
            { st with
              pi := some (policyToList out.2.1)
              Q := some (qToList out.1)
              steps := out.2.2
              policy_fitted := true }) := by
  have hfit : ∀ (st1 : AgentState), st1.policy_fitted = true →
      ∀ (i f : ℕ), AgentState.update_agent T R_sa gamma i f st1 = some st1 := by
    intro st1 h i f
    unfold AgentState.update_agent
    rw [if_pos h]
  have hout : ∀ st', AgentState.update_agent T R_sa gamma inner fuel st = some st' →
      st'.policy_fitted = true := by
    intro st' h
    unfold AgentState.update_agent at h
    by_cases hf : st.policy_fitted = true
    · rw [if_pos hf] at h
      rw [← Option.some_inj.mp h]
      exact hf
    · rw [if_neg hf] at h
      obtain ⟨out, -, hst'⟩ := Option.map_eq_some'.mp h
      rw [← hst']
  refine ⟨fun h => hfit st h inner fuel,
    fun st' h => ⟨hout st' h, fun i f => hfit st' (hout st' h) i f⟩,
    fun h => ?_⟩
  unfold AgentState.update_agent
  rw [if_neg (by simp [h])]

lemma w1_update : AgentState.update_agent w1T w1R0 (1 / 2) 1 1 w1State = some w1StateFit := by
  unfold AgentState.update_agent
  rw [if_neg (by simp [w1State])]
  rw [show policy_iteration (fun _ _ => (0 : ℚ)) (fun _ => (0 : Fin 1)) w1T w1R0 (1 / 2)
      defaultEpsilon 1 1 = some (w1Q0, w1Pi, 1) from w1_iter_default]
  rfl

/-- Witness for C5: fitting the concrete one-state agent once and then
again returns the same fitted state. -/
theorem update_agent_idempotent_witness :
    AgentState.update_agent w1T w1R0 (1 / 2) 1 1 w1State = some w1StateFit
    ∧ w1StateFit.policy_fitted = true
    ∧ AgentState.update_agent w1T w1R0 (1 / 2) 1 1 w1StateFit = some w1StateFit :=
  ⟨w1_update,
    ((update_agent_idempotent w1T w1R0 (1 / 2) 1 1 w1State).2.1 w1StateFit w1_update).1,
    ((update_agent_idempotent w1T w1R0 (1 / 2) 1 1 w1State).2.1 w1StateFit w1_update).2 1 1⟩

/-- C6 (amended): `update_agent` performs no validation of the MDP data
whatsoever: for every transition tensor `T` — row-stochastic or not —
an unfitted agent goes straight into the policy-iteration loop. -/
theorem update_agent_no_validation {nS nA : ℕ} [NeZero nA] (T : Fin nS → Fin nA → Fin nS → ℚ)
    (R_sa : Fin nS → Fin nA → ℚ) (gamma : ℚ) (inner fuel : ℕ) (st : AgentState)
    (h : st.policy_fitted = false) :
    AgentState.update_agent T R_sa gamma inner fuel st
      = (policy_iteration (fun _ _ => (0 : ℚ)) (fun _ => (0 : Fin nA)) T R_sa gamma
          defaultEpsilon inner fuel).map fun out =>
        { st with
          pi := some (policyToList out.2.1)
          Q := some (qToList out.1)
          steps := out.2.2
          policy_fitted := true } := by
  unfold AgentState.update_agent
  rw [if_neg (by simp [h])]

/-- Witness for the amended C6 on the non-stochastic tensor `w1Tbad`. -/
theorem update_agent_no_validation_witness :
    AgentState.update_agent w1Tbad w1R0 (1 / 2) 1 1 w1State
      = (policy_iteration (fun _ _ => (0 : ℚ)) (fun _ => (0 : Fin 1)) w1Tbad w1R0 (1 / 2)
          defaultEpsilon 1 1).map fun out =>
        { w1State with
          pi := some (policyToList out.2.1)
          Q := some (qToList out.1)
          steps := out.2.2
          policy_fitted := true } :=
  update_agent_no_validation w1Tbad w1R0 (1 / 2) 1 1 w1State rfl

lemma w1bad_eval : policy_evaluation w1Pi w1Tbad w1R0 (1 / 2) defaultEpsilon 1
    = some fun _ => 0 := by
  have hstep : (fun s => evalStep w1Pi w1Tbad w1R0 (1 / 2) (fun _ => 0) s
      - (fun _ : Fin 1 => (0 : ℚ)) s) = fun _ : Fin 1 => (0 : ℚ) := by
    funext s
    simp [evalStep, w1Tbad, w1R0]
  show policyEvalAux w1Pi w1Tbad w1R0 (1 / 2) defaultEpsilon (0 + 1) (fun _ => 0)
      = some fun _ => 0
  apply policyEvalAux_stop
  rw [hstep, maxAbs_zero]
  norm_num [defaultEpsilon]

lemma w1bad_Qof : Qof (fun _ => 0) w1Tbad w1R0 (1 / 2) = w1Q0 := by
  funext s a
  simp [Qof, w1Tbad, w1R0, w1Q0]

lemma w1bad_iter : policy_iteration w1Q0 w1Pi w1Tbad w1R0 (1 / 2) defaultEpsilon 1 1
    = some (w1Q0, w1Pi, 1) := by
  show policyIterAux w1Tbad w1R0 (1 / 2) defaultEpsilon 1 (0 + 1) w1Pi 0 = some (w1Q0, w1Pi, 1)
  rw [policyIterAux_step_stop w1bad_eval (fin1_policy_eq _ _), w1bad_Qof]

/-- Counterexample to C6: on a transition tensor whose rows sum to
`1/2`, `fit` raises nothing: it runs the policy-iteration loop and
completes normally, returning a fitted agent after one improvement
round. -/
theorem update_agent_no_validation_cex :
    (∑ s_next, w1Tbad 0 0 s_next) ≠ 1
    ∧ AgentState.update_agent w1Tbad w1R0 (1 / 2) 1 1 w1State = some w1StateFit
    ∧ w1StateFit.policy_fitted = true
    ∧ w1StateFit.steps = 1 := by
  refine ⟨by norm_num [w1Tbad, Fin.sum_univ_one], ?_, rfl, rfl⟩
  unfold AgentState.update_agent
  rw [if_neg (by simp [w1State])]
  rw [show policy_iteration (fun _ _ => (0 : ℚ)) (fun _ => (0 : Fin 1)) w1Tbad w1R0 (1 / 2)
      defaultEpsilon 1 1 = some (w1Q0, w1Pi, 1) from w1bad_iter]
  rfl

/-! Behaviour at `gamma ≥ 1`: the evaluation loop runs forever on a
positive-reward self-loop and nothing checks `gamma`. -/

lemma maxAbs_fin_one (f : Fin 1 → ℚ) : maxAbs f = |f 0| :=
  le_antisymm
    (maxAbs_le (abs_nonneg _) fun s => le_of_eq (by rw [Subsingleton.elim s (0 : Fin 1)]))
    (le_maxAbs f 0)

/-- On the one-state self-loop MDP with reward `1` and any `gamma ≥ 1`,
every evaluation iterate moves by at least `1`, so for `epsilon ≤ 1`
the loop never stops (from any nonnegative start). -/
lemma gammaOne_eval_none (gamma epsilon : ℚ) (hg : 1 ≤ gamma) (he : epsilon ≤ 1) :
    ∀ (fuel : ℕ) (V : Fin 1 → ℚ), 0 ≤ V 0 →
      policyEvalAux w1Pi w1T w1R1 gamma epsilon fuel V = none := by
  have hstep : ∀ V : Fin 1 → ℚ,
      evalStep w1Pi w1T w1R1 gamma V = fun _ => 1 + gamma * V 0 := by
    intro V
    funext s
    have hs : ∀ s_next : Fin 1, V s_next = V 0 := fun s_next => by
      rw [Subsingleton.elim s_next (0 : Fin 1)]
    simp [evalStep, w1T, w1R1, Fin.sum_univ_one, hs]
  intro fuel
  induction fuel with
  | zero => intro V _; rfl
  | succ f ih =>
    intro V hV0
    have hcond : ¬ maxAbs (fun s => evalStep w1Pi w1T w1R1 gamma V s - V s) < epsilon := by
      have he1 : (fun s : Fin 1 => evalStep w1Pi w1T w1R1 gamma V s - V s)
          = fun s : Fin 1 => 1 + gamma * V 0 - V s := by
        funext s
        rw [hstep V]
      rw [he1, maxAbs_fin_one]
      have h1 : (1 : ℚ) ≤ 1 + gamma * V 0 - V 0 := by nlinarith
      rw [abs_of_nonneg (by linarith)]
      linarith
    rw [policyEvalAux_go hcond, hstep V]
    refine ih (fun _ => 1 + gamma * V 0) ?_
    show (0 : ℚ) ≤ 1 + gamma * V 0
    nlinarith

/-- C7 (amended): the code contains no configuration check on `gamma`:
with any `gamma ≥ 1` supplied, `policy_evaluation` simply runs, and on
the one-state self-loop MDP with reward `1` it never terminates (for
any `epsilon ≤ 1` and any amount of fuel), surfacing no error of any
kind. -/
theorem policy_evaluation_gamma_ge_one_loops (gamma epsilon : ℚ)
    (hg : 1 ≤ gamma) (he : epsilon ≤ 1) :
    ∀ fuel, policy_evaluation w1Pi w1T w1R1 gamma epsilon fuel = none := fun fuel =>
  gammaOne_eval_none gamma epsilon hg he fuel (fun _ => 0) le_rfl

/-- Witness for the amended C7 at `gamma = 1`, `epsilon = 1/2`. -/
theorem policy_evaluation_gamma_ge_one_loops_witness :
    (1 : ℚ) ≤ 1 ∧ (1 / 2 : ℚ) ≤ 1
    ∧ policy_evaluation w1Pi w1T w1R1 1 (1 / 2) 3 = none :=
  ⟨le_rfl, by norm_num, policy_evaluation_gamma_ge_one_loops 1 (1 / 2) le_rfl (by norm_num) 3⟩

/-- Counterexample to C7: at `gamma = 1` the computation does not fail
fast — it simply never terminates: no fuel makes `policy_evaluation`
return on the one-state self-loop MDP with reward `1`. -/
theorem policy_evaluation_gamma_one_cex :
    ¬ ∃ fuel V, policy_evaluation w1Pi w1T w1R1 1 (1 / 2) fuel = some V := by
  rintro ⟨fuel, V, h⟩
  have hnone := gammaOne_eval_none 1 (1 / 2) le_rfl (by norm_num) fuel (fun _ => 0) le_rfl
  unfold policy_evaluation at h
  rw [hnone] at h
  exact Option.noConfusion h

/-! Persistence: `save` and `load`. -/

def fsEmpty : FileStore := fun _ => none

def fsBad : FileStore := fun p => if p = "policy.npy" then some [0, 1, 0, 2, 1] else none

def stLoad : AgentState := ⟨2, 2, none, none, 0, false, "policy.npy"⟩

/-- C8 (amended): `load` propagates a missing-file error to the caller;
on a present file it reads the stored array into `pi` — of whatever
shape, without any compatibility check against `nS` — and marks the
agent fitted. -/
theorem load_spec (st : AgentState) (fs : FileStore) :
    (fs st.filename = none → AgentState.load st fs = .error .fileNotFound)
    ∧ (∀ arr, fs st.filename = some arr →
        AgentState.load st fs = .ok { st with pi := some arr, policy_fitted := true }) := by
  constructor
  · intro h
    unfold AgentState.load
    rw [h]
  · intro arr h
    unfold AgentState.load
    rw [h]

/-- Witness for the amended C8: a missing file errors; a present file
of the wrong shape loads fine. -/
theorem load_spec_witness :
    AgentState.load stLoad fsEmpty = .error .fileNotFound
    ∧ AgentState.load stLoad fsBad
        = .ok { stLoad with pi := some [0, 1, 0, 2, 1], policy_fitted := true } :=
  ⟨(load_spec stLoad fsEmpty).1 rfl,
    (load_spec stLoad fsBad).2 [0, 1, 0, 2, 1] rfl⟩

/-- Counterexample to C8: the stored array has length 5 while the agent
has `n_obs = 2`, yet `load` raises no shape error: it succeeds, stores
the incompatible array in `pi` and marks the agent fitted. -/
theorem load_no_shape_check_cex :
    stLoad.n_obs = 2
    ∧ ([0, 1, 0, 2, 1] : List ℤ).length ≠ stLoad.n_obs
    ∧ AgentState.load stLoad fsBad
        = .ok { stLoad with pi := some [0, 1, 0, 2, 1], policy_fitted := true }
    ∧ ∀ e, AgentState.load stLoad fsBad ≠ .error e := by
  have hok : AgentState.load stLoad fsBad
      = .ok { stLoad with pi := some [0, 1, 0, 2, 1], policy_fitted := true } := rfl
  refine ⟨rfl, by decide, hok, ?_⟩
  intro e h
  rw [hok] at h
  exact Except.noConfusion h

/-- C9: `save` before fitting signals a warning (the `true` flag) and
writes nothing — the store is returned unchanged — while `save` on a
fitted agent signals no warning, writes `pi` to `filename` and leaves
every other file unchanged. -/
theorem save_spec (st : AgentState) (fs : FileStore) :
    (st.policy_fitted = false → AgentState.save st fs = (fs, true))
    ∧ (st.policy_fitted = true →
        (AgentState.save st fs).2 = false
        ∧ (AgentState.save st fs).1 st.filename = some (st.pi.getD [])
        ∧ ∀ p, p ≠ st.filename → (AgentState.save st fs).1 p = fs p) := by
  constructor
  · intro h
    unfold AgentState.save
    rw [if_neg (by simp [h])]
  · intro h
    unfold AgentState.save
    rw [if_pos h]
    refine ⟨rfl, by simp, fun p hp => by simp [hp]⟩

/-- Witness for C9: saving the unfitted agent warns and leaves the
empty store unchanged; saving the fitted agent writes its policy. -/
theorem save_spec_witness :
    AgentState.save w1State fsEmpty = (fsEmpty, true)
    ∧ (AgentState.save w1StateFit fsEmpty).2 = false
    ∧ (AgentState.save w1StateFit fsEmpty).1 w1StateFit.filename
        = some (w1StateFit.pi.getD []) :=
  ⟨(save_spec w1State fsEmpty).1 rfl,
    ((save_spec w1StateFit fsEmpty).2 rfl).1,
    ((save_spec w1StateFit fsEmpty).2 rfl).2.1⟩
